import Mathlib

/-!
Verification of the wordle-agent system: a shallow embedding of the game
umpire, candidate filter, tabular value store (Q-table), policies and the
RL agents' training loops, with theorems settling the specification claims.

Conventions of the embedding:
* words are lists of characters (`Word`);
* the numeric values that the program keeps as Python floats are embedded
  as rationals (`ℚ`); all arithmetic performed by the program on them
  (sums, products, comparisons with 0) is exact on the values in play;
* Python dictionaries are embedded as association lists in insertion
  order;
* fallible operations return `Except`;
* sources of randomness (`random.choice`, policy sampling) are passed in
  as explicit oracle functions.
-/

namespace WordleAgent

abbrev Word := List Char

/-- Scores used by `Game.guess` (game.py lines 91-106): `-1.0` for a letter
not present (ABSENT), `-0.5` for present in the wrong place (PRESENT), and
`0.0` for an exact match (CORRECT). -/
def ABSENT : ℚ := -1

def PRESENT : ℚ := -1/2

def CORRECT : ℚ := 0

/-- Body of the first scoring pass of `Game.guess` (game.py lines 94-98):
at an exact-match position, set the score to `0.0` and decrement that
letter's remaining count. -/
def pass1Step (word guess : Word) (p : List ℚ × (Char → Int)) (i : Nat) :
    List ℚ × (Char → Int) :=
  let c := word.getD i ' '
  if c = guess.getD i ' ' then
    (p.1.set i CORRECT, fun x => if x = c then p.2 x - 1 else p.2 x)
  else p

/-- First scoring pass of `Game.guess` (game.py lines 91-98): start from
`rtn = [-1.0] * 5` and `counts = Counter(self.word)`; for each position
where the guessed letter matches the answer exactly, set the score to 0
and decrement the letter's remaining count. Returns the score list and
the remaining-count map after the pass. -/
def scorePass1 (word guess : Word) : List ℚ × (Char → Int) :=
  (List.range word.length).foldl (pass1Step word guess)
    (List.replicate 5 ABSENT, fun c => (word.count c : Int))

/-- Body of the second scoring pass of `Game.guess` (game.py lines
100-106): skip exact matches; otherwise mark PRESENT when the guessed
letter still has remaining count > 0. -/
def pass2Step (word guess : Word) (counts : Char → Int) (rtn : List ℚ)
    (i : Nat) : List ℚ :=
  let c := word.getD i ' '
  let g := guess.getD i ' '
  if g = c then rtn
  else if 0 < counts g then rtn.set i PRESENT
  else rtn

/-- The score computed by `Game.guess` (game.py lines 91-106): the first
pass over the answer's positions, then the second pass.  Note that,
exactly as in the source, the remaining count is NOT decremented when a
position is credited PRESENT in the second pass. -/
def scoreGuess (word guess : Word) : List ℚ :=
  let p := scorePass1 word guess
  (List.range word.length).foldl (pass2Step word guess p.2) p.1

/-- State of the game umpire (`Game.__init__`, game.py): the allowed-guess
list (`self.words`, a set in the source, kept here as the list of its
elements), the sequenced answers, the 1-based position of the current
answer, the active word (`None` when no game is active), and the
randomize flag. -/
structure GameState where
  words : List Word
  answers : List Word
  index : Nat
  word : Option Word
  randomize : Bool
deriving DecidableEq, Repr

/-- The three error conditions raised by `Game.guess` (game.py lines
84-89), in the source's order: "called with no active word",
"is not 5 letters", and "is not an allowed guess". -/
inductive GuessError where
  | inactive
  | badLength
  | notAllowed
deriving DecidableEq, Repr

/-- Boolean success discriminator for `Except`. -/
def exceptOk : Except ε α → Bool
  | .ok _ => true
  | .error _ => false

instance exceptDecEq {ε α : Type _} [DecidableEq ε] [DecidableEq α] :
    DecidableEq (Except ε α) := fun x y =>
  match x, y with
  | .ok a, .ok b =>
    if h : a = b then .isTrue (by rw [h])
    else .isFalse (by intro hh; cases hh; exact h rfl)
  | .error a, .error b =>
    if h : a = b then .isTrue (by rw [h])
    else .isFalse (by intro hh; cases hh; exact h rfl)
  | .ok _, .error _ => .isFalse (by intro h; cases h)
  | .error _, .ok _ => .isFalse (by intro h; cases h)

/-- Embedding of `Game.guess` (game.py lines 73-113): validate the session
and the guess in the source's order, score the guess with the two-pass
algorithm, and deactivate the word when the score sums to zero (all
CORRECT). -/
def gameGuess (g : GameState) (guess : Word) : Except GuessError (List ℚ × GameState) :=
  match g.word with
  | none => .error .inactive
  | some w =>
    if guess.length ≠ 5 then .error .badLength
    else if guess ∉ g.words then .error .notAllowed
    else
      let rtn := scoreGuess w guess
      if rtn.sum = 0 then .ok (rtn, { g with word := none })
      else .ok (rtn, g)

/-- Embedding of `Game.start` (game.py lines 61-71): advance the index;
if the answers are exhausted report `false`, otherwise make the next
answer active. -/
def gameStart (g : GameState) : Bool × GameState :=
  let i := g.index + 1
  if g.answers.length < i then (false, { g with index := i })
  else (true, { g with index := i, word := some (g.answers.getD (i - 1) []) })

/-- Embedding of `Game.reset` (game.py lines 115-122): rewind the index,
clear the active word, and reshuffle the answers when `randomize` was
configured.  The random shuffle is passed in as an oracle permutation
function. -/
def gameReset (shuf : List Word → List Word) (g : GameState) : GameState :=
  { g with index := 0, word := none,
           answers := if g.randomize then shuf g.answers else g.answers }

/-- The CORRECT letter/position pairs collected by `BaseAgent.apply_guess`
(base.py line 75): `[(guess[i], i) for i in range(5) if score[i] == 0]`.
Out-of-range reads (a Python `IndexError`) are modeled with defaults; the
theorems restrict to 5-letter guesses and 5-entry scores. -/
def includePairs (guess : Word) (score : List ℚ) : List (Char × Nat) :=
  (List.range 5).filterMap fun i =>
    if score.getD i 1 = CORRECT then some (guess.getD i ' ', i) else none

/-- The PRESENT letter/position pairs collected by `BaseAgent.apply_guess`
(base.py line 81): `[(guess[i], i) for i in range(5) if score[i] == -0.5]`. -/
def presentPairs (guess : Word) (score : List ℚ) : List (Char × Nat) :=
  (List.range 5).filterMap fun i =>
    if score.getD i 1 = PRESENT then some (guess.getD i ' ', i) else none

/-- The ABSENT letters collected by `BaseAgent.apply_guess` (base.py line
92): `[guess[i] for i in range(5) if score[i] == -1]`. -/
def excludeChars (guess : Word) (score : List ℚ) : List Char :=
  (List.range 5).filterMap fun i =>
    if score.getD i 1 = ABSENT then some (guess.getD i ' ') else none

/-- Filter used for a CORRECT pair (base.py line 77): keep words whose
letter at that position matches. -/
def includePred (p : Char × Nat) (w : Word) : Bool :=
  decide (w.getD p.2 ' ' = p.1)

/-- Filter used for a PRESENT pair (base.py line 84): keep words that
contain the letter somewhere but not at that position. -/
def presentPred (p : Char × Nat) (w : Word) : Bool :=
  decide (p.1 ∈ w ∧ w.getD p.2 ' ' ≠ p.1)

/-- Filter used for an ABSENT letter (base.py line 95): keep words that do
not contain the letter. -/
def excludePred (c : Char) (w : Word) : Bool :=
  decide (c ∉ w)

/-- One step of the ABSENT-letter loop of `BaseAgent.apply_guess` (base.py
lines 93-95): letters that are in the `keep` set are not excluded. -/
def excludeStep (keep : List Char) (ws : List Word) (c : Char) : List Word :=
  if c ∈ keep then ws else ws.filter (excludePred c)

/-- Embedding of `BaseAgent.apply_guess` (base.py lines 59-103): filter on
CORRECT positions, then PRESENT pairs, then globally exclude ABSENT
letters not kept by the earlier steps, and finally remove the first
occurrence of the guess word itself if still present (Python
`list.remove`). -/
def applyGuess (words_in : List Word) (guess : Word) (score : List ℚ) :
    List Word :=
  let ps := includePairs guess score
  let ws1 := ps.foldl (fun ws p => ws.filter (includePred p)) words_in
  let pr := presentPairs guess score
  let ws2 := pr.foldl (fun ws p => ws.filter (presentPred p)) ws1
  let keep := ps.map Prod.fst ++ pr.map Prod.fst
  let ex := excludeChars guess score
  let ws3 := ex.foldl (excludeStep keep) ws2
  if guess ∈ ws3 then ws3.erase guess else ws3

/-- RL states are the tuples of numbers used as `Qsa` keys: the start
sentinel `(0,)` or a 5-tuple of letter scores (`tuple(score)`). -/
abbrev RLState := List ℚ

/-- Association-list lookup, mirroring a Python `dict` read. -/
def alookup {α β : Type _} [DecidableEq α] : List (α × β) → α → Option β
  | [], _ => none
  | (k, v) :: t, a => if k = a then some v else alookup t a

/-- Association-list value replacement at the first matching key,
mirroring a Python `dict` write to an existing key. -/
def aset {α β : Type _} [DecidableEq α] : List (α × β) → α → β → List (α × β)
  | [], _, _ => []
  | (k, v) :: t, a, b => if k = a then (k, b) :: t else (k, v) :: aset t a b

/-- The `Qsa` store (rl_utils.py): the configured action count
(`self.length`), the state → action-value-vector dictionary (the dict
contents of the `Qsa` instance itself), and the `defaultdict` visit
counter (`self.counts`), both as insertion-ordered association lists. -/
structure Qsa where
  length : Nat
  table : List (RLState × List ℚ)
  counts : List (RLState × Nat)
deriving DecidableEq, Repr

/-- Embedding of a `Qsa` dictionary read (`Q[state]`): on a missing key,
`Qsa.__missing__` (rl_utils.py lines 40-42) stores and returns a zero
vector of the configured action count. Returns the vector and the
possibly-extended store. -/
def qsaGet (q : Qsa) (s : RLState) : List ℚ × Qsa :=
  match alookup q.table s with
  | some v => (v, q)
  | none => (List.replicate q.length 0,
      { q with table := q.table ++ [(s, List.replicate q.length 0)] })

/-- The action value `Q(s, a)` seen through the lazy-default dictionary:
the stored vector (or the zero default) read at index `a`. -/
def qval (q : Qsa) (s : RLState) (i : Nat) : ℚ :=
  ((alookup q.table s).getD (List.replicate q.length 0)).getD i 0

/-- Embedding of `Qsa.visit` (rl_utils.py lines 44-46): increment the
`defaultdict(int)` counter of the state. -/
def qsaVisit (q : Qsa) (s : RLState) : Qsa :=
  { q with counts :=
      match alookup q.counts s with
      | some n => aset q.counts s (n + 1)
      | none => q.counts ++ [(s, 1)] }

/-- Embedding of `Qsa.reset` (rl_utils.py lines 148-149): clear the visit
counter and nothing else. -/
def qsaReset (q : Qsa) : Qsa :=
  { q with counts := [] }

/-- The maximum entry of a vector (`0` for the empty vector, on which
`np.argmax` would raise instead). -/
def vmax : List ℚ → ℚ
  | [] => 0
  | x :: t => t.foldl max x

/-- Embedding of `np.argmax`: the first index at which the vector attains
its maximum value. -/
def argmax (l : List ℚ) : Nat :=
  l.findIdx (fun x => decide (x = vmax l))

/-- The probability vector built by the ε-greedy policy
(`Qsa.createEpsilonPolicy`, rl_utils.py lines 127-132): every action gets
mass ε/n, and the greedy action additionally gets 1−ε; the policy then
samples an action from this distribution (`np.random.choice`), so the
vector is the policy's sampling distribution.  The dictionary read may
extend the store via `__missing__`; the extended store is returned too. -/
def epsilonProbs (q : Qsa) (ε : ℚ) (s : RLState) : List ℚ × Qsa :=
  let vq := qsaGet q s
  let best := argmax vq.1
  let probs := List.replicate q.length (ε / q.length)
  (probs.set best (probs.getD best 0 + (1 - ε)), vq.2)

/-- Embedding of the greedy policy (`Qsa.createMaximizeValuePolicy`,
rl_utils.py lines 143-144): `np.argmax(Q[state])`. -/
def maxValuePolicy (q : Qsa) (s : RLState) : Nat × Qsa :=
  (argmax (qsaGet q s).1, (qsaGet q s).2)

/-- The mutable state owned by an RL agent that `reset` touches: the
value store, the agent's internal word list, and the game. -/
structure RLAgentState where
  Q : Qsa
  words : List Word
  game : GameState

/-- Embedding of `BaseAgent.reset` (base.py lines 51-57): shuffle the
word list (oracle permutation `shufW`) and reset the game. -/
def baseAgentReset (shufW shufA : List Word → List Word)
    (a : RLAgentState) : RLAgentState :=
  { a with words := shufW a.words, game := gameReset shufA a.game }

/-- Embedding of `BaseRLAgent.reset` (rl_base.py lines 225-227):
`self.Q.reset()` followed by `super().reset()`. -/
def rlAgentReset (shufW shufA : List Word → List Word)
    (a : RLAgentState) : RLAgentState :=
  baseAgentReset shufW shufA { a with Q := qsaReset a.Q }

/-- Key encoding used by `Qsa.save` (rl_utils.py line 82):
`",".join(map(str, k))`.  Text is modeled as character lists; the Python
numeric formatter `str` is passed in as a function `fmt`, of which the
theorems assume exactly the properties Python documents for `repr` of
numbers: `float(str(x)) == x` and the absence of commas. -/
def encodeKey (fmt : ℚ → List Char) (k : RLState) : List Char :=
  List.intercalate [','] (k.map fmt)

/-- Key decoding used by `Qsa.load` (rl_utils.py line 61):
`tuple(map(float, k.split(",")))`, with `float` passed in as `parse`. -/
def decodeKey (parse : List Char → ℚ) (s : List Char) : RLState :=
  (s.splitOn ',').map parse

/-- Embedding of `Qsa.save` (rl_utils.py lines 70-91): each table entry
becomes a document entry whose key is the comma-joined encoding and whose
value is the vector as a plain numeric list (`list(v)`); JSON
serialization of finite Python floats is lossless, so values are carried
exactly. -/
def qsaSave (fmt : ℚ → List Char) (table : List (RLState × List ℚ)) :
    List (List Char × List ℚ) :=
  table.map fun kv => (encodeKey fmt kv.1, kv.2)

/-- Embedding of `Qsa.load` (rl_utils.py lines 48-68): clear the store,
then re-insert every document entry with the key split on "," and parsed
back to numbers, and the value re-created as a vector (`np.array(v)`). -/
def qsaLoad (parse : List Char → ℚ) (doc : List (List Char × List ℚ)) :
    List (RLState × List ℚ) :=
  doc.map fun kv => (decodeKey parse kv.1, kv.2)

/-- A concrete number formatter standing in for Python `str` in the C5
witness: it has exactly the two properties of `str`/`float` that the
round-trip theorem consumes (no comma in the output, exact inversion),
realized by a unary encoding of the rational's numerator/denominator
pair. -/
def unaryFmt (x : ℚ) : List Char :=
  List.replicate (Nat.pair (Equiv.intEquivNat x.num) x.den) 'a'

/-- The exact inverse of `unaryFmt`, standing in for Python `float` in
the C5 witness. -/
def unaryParse (s : List Char) : ℚ :=
  ((Equiv.intEquivNat.symm (Nat.unpair s.length).1 : ℤ) : ℚ) /
    ((Nat.unpair s.length).2 : ℚ)

/-- The sequence of answer words consumed-and-played by the `while
self.game.start():` loop of `BaseAgent.play` (base.py lines 125-130),
with the episode cap `n`: `start()` is called first, `count` is then
incremented, and the loop breaks when `n` is non-zero and exceeded —
AFTER the answer was already consumed by `start()`.  `play_once` never
touches `game.index` and `start()` overwrites `game.word`, so which words
are played does not depend on the episodes themselves.  Fuel bounds the
loop (`answers.length + 1` always suffices). -/
def playAnswers : Nat → Nat → Nat → GameState → List Word →
    List Word × GameState
  | 0, _, _, g, acc => (acc, g)
  | fuel + 1, n, count, g, acc =>
    let r := gameStart g
    if r.1 = false then (acc, r.2)
    else
      let count2 := count + 1
      if n ≠ 0 ∧ n < count2 then (acc, r.2)
      else playAnswers fuel n count2 r.2 (acc ++ [r.2.word.getD []])

/-- The pair (answers played in training mode, answers played in
evaluation mode) produced by `BaseRLAgent.train` (rl_base.py lines
159-214): `train_pct /= 100`, `training_word_count = int(len(answers) *
train_pct)` (truncation, which is floor for the non-negative
percentages used), then `self.play(training_word_count)` in training
mode followed by `self.play()` in evaluation mode on the same game
object, whose index carries over. -/
def trainPartition (answers : List Word) (trainPct : ℚ) :
    List Word × List Word :=
  let n := (Rat.floor ((answers.length : ℚ) * (trainPct / 100))).toNat
  let g0 : GameState := ⟨[], answers, 0, none, false⟩
  let tr := playAnswers (answers.length + 1) n 0 g0 []
  let te := playAnswers (answers.length + 1) 0 0 tr.2 []
  (tr.1, te.1)

/-- Write-back of the in-place `self.Q[state][action] += ...` mutation:
replace the vector stored at an existing key. -/
def qsaSetVal (q : Qsa) (s : RLState) (v : List ℚ) : Qsa :=
  { q with table := aset q.table s v }

/-- The per-episode `result` dictionary built by the RL agents'
`play_once` (qlearning.py lines 27-28, sarsa.py lines 27-28). -/
structure EpisodeResult where
  guesses : List (Word × List ℚ)
  word : Option Word
  result : Nat
  score : ℚ
  learning_delta : ℚ
deriving DecidableEq, Repr

/-- The ways an RL episode can die with an uncaught Python exception:
the action function hitting an empty candidate list (`random.choice` /
`choices[0]` raise an `IndexError`), `Game.guess` raising, or the
`AttributeError` raised by reading an agent attribute that was never
assigned (`attribute`). -/
inductive EpisodeErr where
  | emptyCandidates
  | game (e : GuessError)
  | attribute
deriving DecidableEq, Repr

/-- Loop state of `QLearningAgent.play_once` (qlearning.py lines 19-77):
the shrinking candidate list, the current RL state (never reassigned in
the Q-learning loop), the value store, the game, and the result record. -/
structure QLLoop where
  words : List Word
  state : RLState
  Q : Qsa
  game : GameState
  res : EpisodeResult
deriving DecidableEq, Repr

/-- One iteration of the `for round in range(6)` loop of
`QLearningAgent.play_once` (qlearning.py lines 34-70): choose an action
by the policy, get a guess from the action function (an oracle standing
for `self.action_table[action](self, words)` with its internal
randomness), score it, update the result record and the candidate list,
and, when training, apply the Q-learning TD update — reading `Q` through
the lazy-default dictionary exactly in source order.  Returns the new
loop state and the `done` flag. -/
def qlStep (a g : ℚ) (training : Bool) (policy : RLState → Nat)
    (actionFn : Nat → List Word → Option Word) (st : QLLoop) :
    Except EpisodeErr (QLLoop × Bool) :=
  let action := policy st.state
  match actionFn action st.words with
  | none => .error .emptyCandidates
  | some guess =>
    match gameGuess st.game guess with
    | .error e => .error (.game e)
    | .ok (score, game2) =>
      let done : Bool := decide (score.sum = 0)
      let reward := if done then score.sum + 5 else score.sum
      let res1 : EpisodeResult :=
        if done then
          { st.res with
            guesses := st.res.guesses ++ [(guess, score)]
            score := st.res.score + score.sum + 5
            result := 1
            word := some guess }
        else
          { st.res with
            guesses := st.res.guesses ++ [(guess, score)]
            score := st.res.score + score.sum }
      let words2 := if done then st.words else applyGuess st.words guess score
      if training then
        let next_state := score
        let vq1 := qsaGet st.Q next_state
        let best := argmax vq1.1
        let td_target := reward + g * vq1.1.getD best 0
        let vq2 := qsaGet vq1.2 st.state
        let old := vq2.1.getD action 0
        let td_delta := td_target - old
        let q3 := qsaSetVal vq2.2 st.state (vq2.1.set action (old + a * td_delta))
        let res2 := { res1 with
          learning_delta := res1.learning_delta + |a * td_delta| }
        .ok ({ st with
          words := words2
          Q := q3
          game := game2
          res := res2 }, done)
      else
        .ok ({ st with words := words2, game := game2, res := res1 }, done)

/-- The `for round in range(6)` loop of `QLearningAgent.play_once`: run
up to `fuel` steps, breaking when a step reports `done`; the final `done`
flag is remembered across iterations. -/
def qlLoop (a g : ℚ) (training : Bool) (policy : RLState → Nat)
    (actionFn : Nat → List Word → Option Word) :
    Nat → QLLoop → Bool → Except EpisodeErr (QLLoop × Bool)
  | 0, st, done => .ok (st, done)
  | fuel + 1, st, _ =>
    match qlStep a g training policy actionFn st with
    | .error e => .error e
    | .ok (st2, done) =>
      if done then .ok (st2, true)
      else qlLoop a g training policy actionFn fuel st2 done

/-- Embedding of `QLearningAgent.play_once` (qlearning.py lines 19-77):
line 32 binds `policy = self.epsilon_greedy if self.training else
self.max_value`, reading one of two agent attributes that may not exist
— `BaseRLAgent.__init__` never assigns them (the assignments at
rl_base.py lines 87-88 are commented out, and `BaseRLAgent.play` sets
only `self.policy`), so in this snapshot both attributes are absent and
the read raises an `AttributeError` before the first guess.  The
attributes are passed as `Option`-valued parameters (`none` = never
assigned); when the selected one exists, six rounds run from the
sentinel state `(0,)`, and on a non-solve the game's active word is
recorded as the episode's word. -/
def qlPlayOnce (a g : ℚ) (training : Bool)
    (epsilon_greedy max_value : Option (RLState → Nat))
    (actionFn : Nat → List Word → Option Word) (q : Qsa)
    (words : List Word) (game : GameState) : Except EpisodeErr EpisodeResult :=
  match (if training then epsilon_greedy else max_value) with
  | none => .error .attribute
  | some policy =>
    let st0 : QLLoop := ⟨words, [0], q, game, ⟨[], none, 0, 0, 0⟩⟩
    match qlLoop a g training policy actionFn 6 st0 false with
    | .error e => .error e
    | .ok (st, done) =>
      if done then .ok st.res else .ok { st.res with word := st.game.word }

/-- Loop state of `SarsaAgent.play_once` (sarsa.py lines 19-89): like the
Q-learning loop state, plus the pre-selected action carried across
iterations. -/
structure SarsaLoop where
  words : List Word
  state : RLState
  action : Nat
  Q : Qsa
  game : GameState
  res : EpisodeResult
deriving DecidableEq, Repr

/-- One iteration of the `for round in range(6)` loop of
`SarsaAgent.play_once` (sarsa.py lines 41-82): use the carried action,
score the guess, pick `next_action = policy(next_state)` BEFORE the
update, apply the Sarsa TD update with that action's value when training
(also recording a visit to the next state), and carry `next_state` and
`next_action` into the next iteration — unless the episode is done, in
which case the loop breaks before the reassignment. -/
def sarsaStep (a g : ℚ) (training : Bool) (policy : RLState → Nat)
    (actionFn : Nat → List Word → Option Word) (st : SarsaLoop) :
    Except EpisodeErr (SarsaLoop × Bool) :=
  match actionFn st.action st.words with
  | none => .error .emptyCandidates
  | some guess =>
    match gameGuess st.game guess with
    | .error e => .error (.game e)
    | .ok (score, game2) =>
      let next_state := score
      let done : Bool := decide (score.sum = 0)
      let reward := if done then score.sum + 5 else score.sum
      let res1 : EpisodeResult :=
        if done then
          { st.res with
            guesses := st.res.guesses ++ [(guess, score)]
            score := st.res.score + score.sum + 5
            result := 1
            word := some guess }
        else
          { st.res with
            guesses := st.res.guesses ++ [(guess, score)]
            score := st.res.score + score.sum }
      let words2 := if done then st.words else applyGuess st.words guess score
      let next_action := policy next_state
      if training then
        let vq1 := qsaGet st.Q next_state
        let td_target := reward + g * vq1.1.getD next_action 0
        let vq2 := qsaGet vq1.2 st.state
        let old := vq2.1.getD st.action 0
        let td_delta := td_target - old
        let q3 := qsaSetVal vq2.2 st.state
          (vq2.1.set st.action (old + a * td_delta))
        let q4 := qsaVisit q3 next_state
        let res2 := { res1 with
          learning_delta := res1.learning_delta + |a * td_delta| }
        if done then
          .ok ({ st with
            words := words2
            Q := q4
            game := game2
            res := res2 }, true)
        else
          .ok ({ st with
            words := words2
            state := next_state
            action := next_action
            Q := q4
            game := game2
            res := res2 }, false)
      else
        if done then
          .ok ({ st with words := words2, game := game2, res := res1 }, true)
        else
          .ok ({ st with
            words := words2
            state := next_state
            action := next_action
            game := game2
            res := res1 }, false)

/-- The `for round in range(6)` loop of `SarsaAgent.play_once`. -/
def sarsaLoop (a g : ℚ) (training : Bool) (policy : RLState → Nat)
    (actionFn : Nat → List Word → Option Word) :
    Nat → SarsaLoop → Bool → Except EpisodeErr (SarsaLoop × Bool)
  | 0, st, done => .ok (st, done)
  | fuel + 1, st, _ =>
    match sarsaStep a g training policy actionFn st with
    | .error e => .error e
    | .ok (st2, done) =>
      if done then .ok (st2, true)
      else sarsaLoop a g training policy actionFn fuel st2 done

/-- Embedding of `SarsaAgent.play_once` (sarsa.py lines 19-89): line 32
binds the policy from the same two never-assigned agent attributes as
the Q-learning agent (rl_base.py lines 87-88 are commented out), so the
read raises an `AttributeError` before the start-state visit; when the
selected attribute exists, mark the start state visited when training,
choose the initial action before the loop, run six rounds, and on a
non-solve record the game's active word. -/
def sarsaPlayOnce (a g : ℚ) (training : Bool)
    (epsilon_greedy max_value : Option (RLState → Nat))
    (actionFn : Nat → List Word → Option Word) (q : Qsa)
    (words : List Word) (game : GameState) :
    Except EpisodeErr EpisodeResult :=
  let state0 : RLState := [0]
  match (if training then epsilon_greedy else max_value) with
  | none => .error .attribute
  | some policy =>
    let q0 := if training then qsaVisit q state0 else q
    let action0 := policy state0
    let st0 : SarsaLoop := ⟨words, state0, action0, q0, game, ⟨[], none, 0, 0, 0⟩⟩
    match sarsaLoop a g training policy actionFn 6 st0 false with
    | .error e => .error e
    | .ok (st, done) =>
      if done then .ok st.res else .ok { st.res with word := st.game.word }

/-- What C2 asserts of one Q-learning training step whose action function
returned a guess that scored `score1`: the step succeeds, the state is
not advanced past the update, the updated entry obeys
`Q(s,a) += α·(target − Q(s,a))` with
`target = reward + γ·max over all actions of Q(next_state, ·)` (the max
taken over every action index of the configured action count), and no
other entry changes. -/
def qlStepSpec (a g : ℚ) (policy : RLState → Nat)
    (actionFn : Nat → List Word → Option Word) (stq : QLLoop)
    (score1 : List ℚ) : Prop :=
  exceptOk (qlStep a g true policy actionFn stq) = true ∧
  ∀ st2 done, qlStep a g true policy actionFn stq = .ok (st2, done) →
    done = decide (score1.sum = 0) ∧
    st2.state = stq.state ∧
    qval st2.Q stq.state (policy stq.state) =
      qval stq.Q stq.state (policy stq.state) +
        a * (((if score1.sum = 0 then score1.sum + 5 else score1.sum) +
            g * vmax (qsaGet stq.Q score1).1) -
          qval stq.Q stq.state (policy stq.state)) ∧
    (∀ j, j < stq.Q.length →
      qval stq.Q score1 j ≤ vmax (qsaGet stq.Q score1).1) ∧
    (∃ j, j < stq.Q.length ∧
      qval stq.Q score1 j = vmax (qsaGet stq.Q score1).1) ∧
    (∀ s2 j, s2 ≠ stq.state → qval st2.Q s2 j = qval stq.Q s2 j) ∧
    (∀ j, j ≠ policy stq.state →
      qval st2.Q stq.state j = qval stq.Q stq.state j)

/-- What C2 asserts of one Sarsa training step whose carried action
produced a guess that scored `score2`: the step succeeds, the updated
entry obeys `Q(s,a) += α·(target − Q(s,a))` with
`target = reward + γ·Q(next_state, next_action)` where
`next_action = policy(next_state)` is chosen before the update (the
target reads the pre-update store), the pre-selected next action and the
next state are carried into the following iteration when the episode is
not done, and no other entry changes. -/
def sarsaStepSpec (a g : ℚ) (policy : RLState → Nat)
    (actionFn : Nat → List Word → Option Word) (sts : SarsaLoop)
    (score2 : List ℚ) : Prop :=
  exceptOk (sarsaStep a g true policy actionFn sts) = true ∧
  ∀ st2 done, sarsaStep a g true policy actionFn sts = .ok (st2, done) →
    done = decide (score2.sum = 0) ∧
    qval st2.Q sts.state sts.action =
      qval sts.Q sts.state sts.action +
        a * (((if score2.sum = 0 then score2.sum + 5 else score2.sum) +
            g * qval sts.Q score2 (policy score2)) -
          qval sts.Q sts.state sts.action) ∧
    (done = false → st2.state = score2 ∧ st2.action = policy score2) ∧
    (∀ s2 j, s2 ≠ sts.state → qval st2.Q s2 j = qval sts.Q s2 j) ∧
    (∀ j, j ≠ sts.action → qval st2.Q sts.state j = qval sts.Q sts.state j)

/-- A concrete game used by witnesses: active answer "crane", allowed
guess list {"slate"}. -/
def exampleGame : GameState :=
  ⟨["slate".toList], ["crane".toList], 1, some "crane".toList, false⟩

/-- A concrete Q-learning loop state used by witnesses: candidate list
{"slate"}, sentinel state, a fresh 3-action store. -/
def exampleQL : QLLoop :=
  ⟨["slate".toList], [0], ⟨3, [], []⟩, exampleGame, ⟨[], none, 0, 0, 0⟩⟩

/-- A concrete Sarsa loop state used by witnesses. -/
def exampleSarsa : SarsaLoop :=
  ⟨["slate".toList], [0], 0, ⟨3, [], []⟩, exampleGame, ⟨[], none, 0, 0, 0⟩⟩

/-- Embedding of `guess_by_random` (rl_actions.py lines 13-25):
`random.choice(words)` raises an `IndexError` on an empty list (modeled
as `none`); on a non-empty list it returns a uniformly chosen element,
modeled through the `pick` oracle.  The append to the agent's diagnostic
guess log is not modeled. -/
def guess_by_random (pick : Nat) (words : List Word) : Option Word :=
  if words.isEmpty then none
  else some (words.getD (pick % words.length) [])

/-- Embedding of `score` (simple.py lines 18-24 and words.py lines
30-36): the number of distinct letters in a word. -/
def score (word : Word) : Nat :=
  word.dedup.length

/-- One increment of a Python `Counter`: bump an existing key in place or
append a new key with count 1. -/
def counterAdd : List (Char × Nat) → Char → List (Char × Nat)
  | [], c => [(c, 1)]
  | (k, n) :: t, c =>
    if k = c then (k, n + 1) :: t else (k, n) :: counterAdd t c

/-- Embedding of `letter_freq` (words.py lines 19-27): accumulate letter
counts over all words, keys in first-encounter order as a Python
`Counter` keeps them. -/
def letter_freq (words : List Word) : List (Char × Nat) :=
  words.foldl (fun c w => w.foldl counterAdd c) []

/-- `Counter.most_common()`: the entries sorted by count descending,
ties kept in insertion order (Python's sort is stable). -/
def most_common (c : List (Char × Nat)) : List (Char × Nat) :=
  c.mergeSort (fun x y => decide (y.2 ≤ x.2))

/-- Python `list.pop()`: remove and return the last element. -/
def popLast (l : List α) : Option (α × List α) :=
  match l.getLast? with
  | none => none
  | some x => some (x, l.dropLast)

/-- `itertools.product(letters, repeat=5)` joined back into words, in
product order (rightmost position varying fastest). -/
def product5 (letters : List Char) : List Word :=
  letters.flatMap fun c1 => letters.flatMap fun c2 =>
    letters.flatMap fun c3 => letters.flatMap fun c4 =>
      letters.map fun c5 => [c1, c2, c3, c4, c5]

/-- The `for _ in range(4)` letter-seeding loop of
`SimpleAgent.get_candidate_words` (simple.py lines 107-109): pop up to
`k` highest-frequency letters off the reversed frequency list. -/
def takeLetters : Nat → List (Char × Nat) → List Char →
    List Char × List (Char × Nat)
  | 0, freqs, letters => (letters, freqs)
  | k + 1, freqs, letters =>
    match popLast freqs with
    | none => takeLetters k freqs letters
    | some (p, rest) => takeLetters k rest (letters ++ [p.1])

/-- One body of the `while not candidates` loop of
`SimpleAgent.get_candidate_words` (simple.py lines 117-124): all
five-letter products of the letters, restricted to acceptable words and
ordered by distinct-letter count descending (stable). -/
def candidateRound (wordSet : List Word) (letters : List Char) : List Word :=
  let products := product5 letters
  let possibles := products.filter (fun x => decide (x ∈ wordSet))
  let weighted := possibles.map (fun x => (x, score x))
  let sorted := weighted.mergeSort (fun x y => decide (y.2 ≤ x.2))
  sorted.map Prod.fst

/-- The `while not candidates` loop of `SimpleAgent.get_candidate_words`
(simple.py lines 111-126): add one more letter when available, rebuild
the candidates, and stop when candidates were found or the frequency
list ran out.  Fuel bounds the loop; `freqs.length + 1` always
suffices. -/
def candidateLoop (wordSet : List Word) :
    Nat → List (Char × Nat) → List Char → List Word
  | 0, _, _ => []
  | fuel + 1, freqs, letters =>
    let step :=
      match popLast freqs with
      | none => (letters, freqs)
      | some (p, rest) => (letters ++ [p.1], rest)
    let cands := candidateRound wordSet step.1
    if step.2.isEmpty then cands
    else if cands.isEmpty then candidateLoop wordSet fuel step.2 step.1
    else cands

/-- Embedding of `SimpleAgent.get_candidate_words` (simple.py lines
93-128): empty input short-circuits to an empty list; otherwise seed up
to four letters from the reversed `most_common` list and run the
candidate-building loop. -/
def get_candidate_words (words : List Word) : List Word :=
  if words.isEmpty then []
  else
    let frequencies := (most_common (letter_freq words)).reverse
    let start := takeLetters 4 frequencies []
    candidateLoop words (start.2.length + 1) start.2 start.1

/-- Embedding of `filter_out` (simple.py lines 27-63): like
`BaseAgent.apply_guess` but with the ordinal 2/0/1 score encoding, the
exclude step before the present step, and no removal of the guess
itself. -/
def filter_out (words_in : List Word) (guess : Word) (sc : List ℚ) :
    List Word :=
  let ps := (List.range 5).filterMap fun i =>
    if sc.getD i (-2) = 2 then some (guess.getD i ' ', i) else none
  let ws1 := ps.foldl (fun ws p => ws.filter (includePred p)) words_in
  let keep := ps.map Prod.fst
  let ex := (List.range 5).filterMap fun i =>
    if sc.getD i (-2) = 0 then some (guess.getD i ' ') else none
  let ws2 := ex.foldl (excludeStep keep) ws1
  let pr := (List.range 5).filterMap fun i =>
    if sc.getD i (-2) = 1 then some (guess.getD i ' ', i) else none
  pr.foldl (fun ws p => ws.filter (presentPred p)) ws2

/-- The diagnostic notices `SimpleAgent.play_once` prints: running out of
candidate words in a round, solving, or failing at the end. -/
inductive Notice where
  | exhausted (round : Nat)
  | solved (guess : Word) (round : Nat)
  | failed (word : Option Word)
deriving DecidableEq, Repr

/-- The `result` dictionary of `SimpleAgent.play_once` (simple.py line
136). -/
structure SimpleResult where
  guesses : List (Word × List ℚ)
  word : Option Word
  result : Nat
deriving DecidableEq, Repr

/-- Loop state of `SimpleAgent.play_once`: the candidate pool, the
result record, the emitted notices, and the game. -/
structure SimpleLoop where
  words : List Word
  res : SimpleResult
  notices : List Notice
  game : GameState
deriving DecidableEq, Repr

/-- One iteration of the `for round in range(6)` loop of
`SimpleAgent.play_once` (simple.py lines 138-168): rebuild the candidate
list; an empty list breaks out of the episode with a diagnostic notice
(simple.py lines 144-147) instead of raising; otherwise guess (randomly
through the `pick` oracle, or the head), score, and either finish on the
`sum(score) == 10` check or narrow the pool with `filter_out`.  Returns
the new state and the break flag. -/
def simpleStep (pick : List Word → Nat) (randomize : Bool) (roundNum : Nat)
    (st : SimpleLoop) : Except GuessError (SimpleLoop × Bool) :=
  let word_list := get_candidate_words st.words
  if word_list.isEmpty then
    .ok ({ st with notices := st.notices ++ [.exhausted roundNum] }, true)
  else
    let guess :=
      if randomize then word_list.getD (pick word_list % word_list.length) []
      else word_list.headD []
    match gameGuess st.game guess with
    | .error e => .error e
    | .ok (sc, game2) =>
      let res1 := { st.res with guesses := st.res.guesses ++ [(guess, sc)] }
      if sc.sum = 10 then
        .ok ({ st with
          res := { res1 with result := 1, word := some guess }
          notices := st.notices ++ [.solved guess roundNum]
          game := game2 }, true)
      else
        .ok ({ st with
          words := filter_out st.words guess sc
          res := res1
          game := game2 }, false)

/-- The `for round in range(6)` loop of `SimpleAgent.play_once`. -/
def simpleLoop (pick : List Word → Nat) (randomize : Bool) :
    Nat → Nat → SimpleLoop → Except GuessError SimpleLoop
  | 0, _, st => .ok st
  | fuel + 1, roundNum, st =>
    match simpleStep pick randomize roundNum st with
    | .error e => .error e
    | .ok (st2, brk) =>
      if brk then .ok st2
      else simpleLoop pick randomize fuel (roundNum + 1) st2

/-- The epilogue of `SimpleAgent.play_once` (simple.py lines 170-174):
when no word was recorded, record the game's active word as the
episode's word (a loss) and print a failure notice. -/
def simpleFinalize (st : SimpleLoop) : SimpleLoop :=
  match st.res.word with
  | some _ => st
  | none =>
    { st with
      res := { st.res with word := st.game.word }
      notices := st.notices ++ [.failed st.game.word] }

/-- Embedding of `SimpleAgent.play_once` (simple.py lines 130-176). -/
def simplePlayOnce (pick : List Word → Nat) (randomize : Bool)
    (words : List Word) (game : GameState) : Except GuessError SimpleLoop :=
  match simpleLoop pick randomize 6 0 ⟨words, ⟨[], none, 0⟩, [], game⟩ with
  | .error e => .error e
  | .ok st => .ok (simpleFinalize st)

/-! ### Theorems -/

/-- `pass1Step` never changes the length of the score list. -/
theorem pass1Step_length (word guess : Word) (p : List ℚ × (Char → Int))
    (i : Nat) : ((pass1Step word guess p i).1.length = p.1.length) := by
  simp only [pass1Step]
  split <;> simp

/-- Folding `pass1Step` never changes the length of the score list. -/
theorem foldl_pass1_length (word guess : Word) (l : List Nat)
    (init : List ℚ × (Char → Int)) :
    (l.foldl (pass1Step word guess) init).1.length = init.1.length := by
  induction l generalizing init with
  | nil => rfl
  | cons i t ih => rw [List.foldl_cons, ih, pass1Step_length]

/-- `pass2Step` never changes the length of the score list. -/
theorem pass2Step_length (word guess : Word) (counts : Char → Int)
    (rtn : List ℚ) (i : Nat) :
    (pass2Step word guess counts rtn i).length = rtn.length := by
  simp only [pass2Step]
  split <;> [rfl; skip]
  split <;> simp

/-- Folding `pass2Step` never changes the length of the score list. -/
theorem foldl_pass2_length (word guess : Word) (counts : Char → Int)
    (l : List Nat) (init : List ℚ) :
    (l.foldl (pass2Step word guess counts) init).length = init.length := by
  induction l generalizing init with
  | nil => rfl
  | cons i t ih => rw [List.foldl_cons, ih, pass2Step_length]

/-- The score list produced by the two-pass algorithm always has 5
entries (it starts as `[-1.0] * 5` and is only updated in place). -/
theorem scoreGuess_length (word guess : Word) :
    (scoreGuess word guess).length = 5 := by
  unfold scoreGuess
  rw [foldl_pass2_length]
  unfold scorePass1
  rw [foldl_pass1_length]
  simp

/-- C1: the claim states that when the answer contains a letter exactly
once and the guess contains it at two non-correct positions, exactly one
of the two positions is marked PRESENT and the other ABSENT.  The code
does not decrement the remaining count in the second scoring pass, so it
marks BOTH positions PRESENT: with answer "crane" (one 'a') and guess
"salad" ('a' at positions 1 and 3, neither an exact match), `Game.guess`
returns PRESENT at both positions 1 and 3. -/
theorem c1_duplicate_letter_both_present :
    gameGuess ⟨["salad".toList], ["crane".toList], 1, some "crane".toList, false⟩
      "salad".toList
    = .ok ([ABSENT, PRESENT, ABSENT, PRESENT, ABSENT],
        ⟨["salad".toList], ["crane".toList], 1, some "crane".toList, false⟩) := by
  with_unfolding_all decide

/-- C6: `Game.guess` fails exactly when the session is inactive, the
guess is not 5 characters, or the guess is not an allowed word — checked
in that order — and otherwise returns a 5-element score.  The hypothesis
restricts to game states whose active word is a 5-letter word (the data
model's invariant); outside it the Python code would fail with an index
error rather than return a score. -/
theorem c6_guess_error_conditions (g : GameState) (guess : Word)
    (hw : ∀ w ∈ g.word, w.length = 5) :
    (exceptOk (gameGuess g guess) = false ↔
      (g.word = none ∨ guess.length ≠ 5 ∨ guess ∉ g.words))
    ∧ (g.word = none → gameGuess g guess = .error .inactive)
    ∧ (∀ w, g.word = some w → guess.length ≠ 5 →
        gameGuess g guess = .error .badLength)
    ∧ (∀ w, g.word = some w → guess.length = 5 → guess ∉ g.words →
        gameGuess g guess = .error .notAllowed)
    ∧ (∀ s g2, gameGuess g guess = .ok (s, g2) → s.length = 5) := by
  cases hword : g.word with
  | none =>
    simp [gameGuess, hword, exceptOk]
  | some w =>
    by_cases hlen : guess.length = 5
    · by_cases hmem : guess ∈ g.words
      · refine ⟨?_, ?_, ?_, ?_, ?_⟩
        · simp only [gameGuess, hword, hlen, hmem]
          by_cases hsum : (scoreGuess w guess).sum = 0 <;>
            simp [hsum, exceptOk, hlen, hmem]
        · intro h; simp [hword] at h
        · intro w' _ h; exact absurd hlen h
        · intro w' _ _ h; exact absurd hmem h
        · intro s g2 h
          simp only [gameGuess, hword, hlen, hmem] at h
          by_cases hsum : (scoreGuess w guess).sum = 0 <;>
            simp [hsum] at h <;>
            rw [← h.1] <;> exact scoreGuess_length w guess
      · refine ⟨?_, ?_, ?_, ?_, ?_⟩
        · simp [gameGuess, hword, hlen, hmem, exceptOk]
        · intro h; simp [hword] at h
        · intro w' _ h; exact absurd hlen h
        · intro _ _ _ _; simp [gameGuess, hword, hlen, hmem]
        · intro s g2 h
          simp [gameGuess, hword, hlen, hmem] at h
    · refine ⟨?_, ?_, ?_, ?_, ?_⟩
      · simp [gameGuess, hword, hlen, exceptOk]
      · intro h; simp [hword] at h
      · intro _ _ _; simp [gameGuess, hword, hlen]
      · intro w' _ h; exact absurd h hlen
      · intro s g2 h
        simp [gameGuess, hword, hlen] at h

/-- Witness for C6 at a concrete game: active answer "crane", allowed
guesses {"slate"}, guessing "slate" succeeds with a 5-element score. -/
theorem c6_guess_error_conditions_witness :
    (∀ w ∈ (⟨["slate".toList], ["crane".toList], 1, some "crane".toList,
        false⟩ : GameState).word, w.length = 5)
    ∧ ((exceptOk (gameGuess ⟨["slate".toList], ["crane".toList], 1,
          some "crane".toList, false⟩ "slate".toList) = false ↔
        ((⟨["slate".toList], ["crane".toList], 1, some "crane".toList,
            false⟩ : GameState).word = none ∨
          ("slate".toList : Word).length ≠ 5 ∨
          "slate".toList ∉ (⟨["slate".toList], ["crane".toList], 1,
            some "crane".toList, false⟩ : GameState).words))
      ∧ ((⟨["slate".toList], ["crane".toList], 1, some "crane".toList,
            false⟩ : GameState).word = none →
          gameGuess ⟨["slate".toList], ["crane".toList], 1,
            some "crane".toList, false⟩ "slate".toList = .error .inactive)
      ∧ (∀ w, (⟨["slate".toList], ["crane".toList], 1, some "crane".toList,
            false⟩ : GameState).word = some w →
          ("slate".toList : Word).length ≠ 5 →
          gameGuess ⟨["slate".toList], ["crane".toList], 1,
            some "crane".toList, false⟩ "slate".toList = .error .badLength)
      ∧ (∀ w, (⟨["slate".toList], ["crane".toList], 1, some "crane".toList,
            false⟩ : GameState).word = some w →
          ("slate".toList : Word).length = 5 →
          "slate".toList ∉ (⟨["slate".toList], ["crane".toList], 1,
            some "crane".toList, false⟩ : GameState).words →
          gameGuess ⟨["slate".toList], ["crane".toList], 1,
            some "crane".toList, false⟩ "slate".toList = .error .notAllowed)
      ∧ (∀ s g2, gameGuess ⟨["slate".toList], ["crane".toList], 1,
            some "crane".toList, false⟩ "slate".toList = .ok (s, g2) →
          s.length = 5)) :=
  ⟨by decide, c6_guess_error_conditions _ _ (by decide)⟩

/-- Membership in a fold of filters: an element survives iff it was in
the initial list and satisfies every filter predicate. -/
theorem mem_filterFold {α β : Type _} (f : β → α → Bool) (l : List β)
    (init : List α) (x : α) :
    x ∈ l.foldl (fun ws p => ws.filter (f p)) init ↔
      x ∈ init ∧ ∀ p ∈ l, f p x := by
  induction l generalizing init with
  | nil => simp
  | cons p t ih =>
    rw [List.foldl_cons, ih]
    simp only [List.mem_filter, List.mem_cons]
    constructor
    · rintro ⟨⟨hx, hp⟩, ht⟩
      refine ⟨hx, ?_⟩
      rintro q (rfl | hq)
      · exact hp
      · exact ht q hq
    · rintro ⟨hx, hall⟩
      exact ⟨⟨hx, hall p (Or.inl rfl)⟩, fun q hq => hall q (Or.inr hq)⟩

/-- Membership in the ABSENT-letter fold: an element survives iff it was
in the initial list and, for each excluded letter, either the letter is
kept by the earlier steps or the word does not contain it. -/
theorem mem_excludeFold (keep : List Char) (l : List Char)
    (init : List Word) (x : Word) :
    x ∈ l.foldl (excludeStep keep) init ↔
      x ∈ init ∧ ∀ c ∈ l, c ∈ keep ∨ excludePred c x := by
  induction l generalizing init with
  | nil => simp
  | cons c t ih =>
    rw [List.foldl_cons, ih]
    by_cases hc : c ∈ keep
    · simp only [excludeStep, if_pos hc, List.mem_cons]
      constructor
      · rintro ⟨hx, ht⟩
        refine ⟨hx, ?_⟩
        rintro d (rfl | hd)
        · exact Or.inl hc
        · exact ht d hd
      · rintro ⟨hx, hall⟩
        exact ⟨hx, fun d hd => hall d (Or.inr hd)⟩
    · simp only [excludeStep, if_neg hc, List.mem_filter, List.mem_cons]
      constructor
      · rintro ⟨⟨hx, hp⟩, ht⟩
        refine ⟨hx, ?_⟩
        rintro d (rfl | hd)
        · exact Or.inr hp
        · exact ht d hd
      · rintro ⟨hx, hall⟩
        refine ⟨⟨hx, ?_⟩, fun d hd => hall d (Or.inr hd)⟩
        rcases hall c (Or.inl rfl) with h | h
        · exact absurd h hc
        · exact h

/-- A fold of filters leaves a duplicate-free list duplicate-free. -/
theorem filterFold_nodup {α β : Type _} (f : β → α → Bool) (l : List β)
    (init : List α) (h : init.Nodup) :
    (l.foldl (fun ws p => ws.filter (f p)) init).Nodup := by
  induction l generalizing init with
  | nil => exact h
  | cons p t ih => exact ih _ (h.filter _)

/-- The ABSENT-letter fold leaves a duplicate-free list duplicate-free. -/
theorem excludeFold_nodup (keep : List Char) (l : List Char)
    (init : List Word) (h : init.Nodup) :
    (l.foldl (excludeStep keep) init).Nodup := by
  induction l generalizing init with
  | nil => exact h
  | cons c t ih =>
    refine ih _ ?_
    unfold excludeStep
    split
    · exact h
    · exact h.filter _

/-- A fold of filters whose predicates already hold on every element of
the initial list returns the initial list unchanged. -/
theorem filterFold_eq_self {α β : Type _} (f : β → α → Bool) (l : List β)
    (init : List α) (h : ∀ x ∈ init, ∀ p ∈ l, f p x) :
    l.foldl (fun ws p => ws.filter (f p)) init = init := by
  induction l generalizing init with
  | nil => rfl
  | cons p t ih =>
    rw [List.foldl_cons,
      List.filter_eq_self.2 (fun x hx => h x hx p (List.mem_cons_self p t))]
    exact ih _ (fun x hx q hq => h x hx q (List.mem_cons_of_mem p hq))

/-- The ABSENT-letter fold, when every element of the initial list already
survives each step, returns the initial list unchanged. -/
theorem excludeFold_eq_self (keep : List Char) (l : List Char)
    (init : List Word)
    (h : ∀ x ∈ init, ∀ c ∈ l, c ∈ keep ∨ excludePred c x) :
    l.foldl (excludeStep keep) init = init := by
  induction l generalizing init with
  | nil => rfl
  | cons c t ih =>
    have hstep : excludeStep keep init c = init := by
      unfold excludeStep
      split
      · rfl
      · refine List.filter_eq_self.2 (fun x hx => ?_)
        rcases h x hx c (List.mem_cons_self c t) with hc | hc
        · exact absurd hc (by assumption)
        · exact hc
    rw [List.foldl_cons, hstep]
    exact ih _ (fun x hx d hd => h x hx d (List.mem_cons_of_mem c hd))

/-- The candidate filter only ever narrows the candidate list. -/
theorem applyGuess_subset (ws : List Word) (g : Word) (s : List ℚ) :
    applyGuess ws g s ⊆ ws := by
  intro x hx
  simp only [applyGuess] at hx
  have hx3 : x ∈ (excludeChars g s).foldl
      (excludeStep
        ((includePairs g s).map Prod.fst ++ (presentPairs g s).map Prod.fst))
      ((presentPairs g s).foldl (fun ws p => ws.filter (presentPred p))
        ((includePairs g s).foldl
          (fun ws p => ws.filter (includePred p)) ws)) := by
    split at hx
    · exact List.mem_of_mem_erase hx
    · exact hx
  have h3 := (mem_excludeFold _ _ _ _).1 hx3
  have h2 := (mem_filterFold presentPred _ _ _).1 h3.1
  have h1 := (mem_filterFold includePred _ _ _).1 h2.1
  exact h1.1

/-- The candidate filter leaves a duplicate-free list duplicate-free. -/
theorem applyGuess_nodup (ws : List Word) (g : Word) (s : List ℚ)
    (h : ws.Nodup) : (applyGuess ws g s).Nodup := by
  simp only [applyGuess]
  have h3 := excludeFold_nodup
    ((includePairs g s).map Prod.fst ++ (presentPairs g s).map Prod.fst)
    (excludeChars g s) _
    (filterFold_nodup presentPred (presentPairs g s) _
      (filterFold_nodup includePred (includePairs g s) ws h))
  split
  · exact h3.erase g
  · exact h3

/-- On a duplicate-free candidate list, the guess itself never survives
the candidate filter. -/
theorem not_mem_applyGuess (ws : List Word) (g : Word) (s : List ℚ)
    (h : ws.Nodup) : g ∉ applyGuess ws g s := by
  simp only [applyGuess]
  have h3 := excludeFold_nodup
    ((includePairs g s).map Prod.fst ++ (presentPairs g s).map Prod.fst)
    (excludeChars g s) _
    (filterFold_nodup presentPred (presentPairs g s) _
      (filterFold_nodup includePred (includePairs g s) ws h))
  split
  · intro hx
    exact absurd rfl ((h3.mem_erase_iff.1 hx).1)
  · assumption

/-- Every survivor of the candidate filter satisfies all three families
of filter predicates that `apply_guess` applied. -/
theorem applyGuess_mem_preds (ws : List Word) (g : Word) (s : List ℚ)
    (x : Word) (hx : x ∈ applyGuess ws g s) :
    (∀ p ∈ includePairs g s, includePred p x) ∧
    (∀ p ∈ presentPairs g s, presentPred p x) ∧
    (∀ c ∈ excludeChars g s,
      c ∈ (includePairs g s).map Prod.fst ++ (presentPairs g s).map Prod.fst
        ∨ excludePred c x) := by
  simp only [applyGuess] at hx
  have hx3 : x ∈ (excludeChars g s).foldl
      (excludeStep
        ((includePairs g s).map Prod.fst ++ (presentPairs g s).map Prod.fst))
      ((presentPairs g s).foldl (fun ws p => ws.filter (presentPred p))
        ((includePairs g s).foldl
          (fun ws p => ws.filter (includePred p)) ws)) := by
    split at hx
    · exact List.mem_of_mem_erase hx
    · exact hx
  have h3 := (mem_excludeFold _ _ _ _).1 hx3
  have h2 := (mem_filterFold presentPred _ _ _).1 h3.1
  have h1 := (mem_filterFold includePred _ _ _).1 h2.1
  exact ⟨h1.2, h2.2, h3.2⟩

/-- A list whose elements satisfy all of the filter predicates and which
does not contain the guess is a fixed point of the candidate filter. -/
theorem applyGuess_fix (O : List Word) (g : Word) (s : List ℚ)
    (hincl : ∀ x ∈ O, ∀ p ∈ includePairs g s, includePred p x)
    (hpres : ∀ x ∈ O, ∀ p ∈ presentPairs g s, presentPred p x)
    (hex : ∀ x ∈ O, ∀ c ∈ excludeChars g s,
      c ∈ (includePairs g s).map Prod.fst ++ (presentPairs g s).map Prod.fst
        ∨ excludePred c x)
    (hg : g ∉ O) : applyGuess O g s = O := by
  simp only [applyGuess]
  rw [filterFold_eq_self includePred _ _ hincl,
    filterFold_eq_self presentPred _ _ hpres,
    excludeFold_eq_self _ _ _ hex, if_neg hg]

/-- C8 counterexample: as universally quantified over every candidate
word list, the claim fails, because Python's `list.remove` drops only the
first occurrence of the guess: filtering the duplicated list
`["crane", "crane"]` with guess "crane" and an all-CORRECT score leaves
the guess in the output. -/
theorem c8_guess_survives_duplicates :
    "crane".toList ∈ applyGuess ["crane".toList, "crane".toList]
      "crane".toList (List.replicate 5 CORRECT) := by
  with_unfolding_all decide

/-- C8 (amended): the output of the candidate filter is always a subset
of the input list; and on a duplicate-free input list — which the agents
guarantee, seeding candidates from the game's de-duplicated word set —
the guess word itself is never a member of the output. -/
theorem c8_filter_subset_and_removes_guess (ws : List Word) (g : Word)
    (s : List ℚ) (h : ws.Nodup) :
    applyGuess ws g s ⊆ ws ∧ g ∉ applyGuess ws g s :=
  ⟨applyGuess_subset ws g s, not_mem_applyGuess ws g s h⟩

/-- Witness for the amended C8 on a concrete duplicate-free list. -/
theorem c8_filter_subset_and_removes_guess_witness :
    (["crane".toList] : List Word).Nodup ∧
      (applyGuess ["crane".toList] "crane".toList
          (List.replicate 5 CORRECT) ⊆ ["crane".toList] ∧
        "crane".toList ∉ applyGuess ["crane".toList] "crane".toList
          (List.replicate 5 CORRECT)) :=
  ⟨by decide, c8_filter_subset_and_removes_guess _ _ _ (by decide)⟩

/-- C9 counterexample: with a duplicated candidate list the filter is not
idempotent — the first application keeps one copy of the guess, the
second removes it. -/
theorem c9_not_idempotent_duplicates :
    applyGuess (applyGuess ["slate".toList, "slate".toList] "slate".toList
        (List.replicate 5 CORRECT)) "slate".toList (List.replicate 5 CORRECT)
      ≠ applyGuess ["slate".toList, "slate".toList] "slate".toList
        (List.replicate 5 CORRECT) := by
  with_unfolding_all decide

/-- C9 (amended): on a duplicate-free candidate list — which the agents
guarantee — the candidate filter is idempotent for a fixed guess and
score. -/
theorem c9_filter_idempotent (ws : List Word) (g : Word) (s : List ℚ)
    (h : ws.Nodup) :
    applyGuess (applyGuess ws g s) g s = applyGuess ws g s := by
  refine applyGuess_fix _ g s ?_ ?_ ?_ (not_mem_applyGuess ws g s h)
  · exact fun x hx => (applyGuess_mem_preds ws g s x hx).1
  · exact fun x hx => (applyGuess_mem_preds ws g s x hx).2.1
  · exact fun x hx => (applyGuess_mem_preds ws g s x hx).2.2

/-- Witness for the amended C9 on a concrete duplicate-free list. -/
theorem c9_filter_idempotent_witness :
    (["trace".toList, "crane".toList] : List Word).Nodup ∧
      applyGuess (applyGuess ["trace".toList, "crane".toList]
          "crane".toList (List.replicate 5 PRESENT)) "crane".toList
          (List.replicate 5 PRESENT)
        = applyGuess ["trace".toList, "crane".toList] "crane".toList
            (List.replicate 5 PRESENT) :=
  ⟨by decide, c9_filter_idempotent _ _ _ (by decide)⟩

/-- Folding `max` only grows the accumulator, and dominates every
element folded over. -/
theorem le_foldl_max (t : List ℚ) (a : ℚ) :
    a ≤ t.foldl max a ∧ ∀ x ∈ t, x ≤ t.foldl max a := by
  induction t generalizing a with
  | nil => simp
  | cons y r ih =>
    rw [List.foldl_cons]
    obtain ⟨h1, h2⟩ := ih (max a y)
    refine ⟨le_trans (le_max_left a y) h1, ?_⟩
    intro x hx
    rcases List.mem_cons.1 hx with rfl | hx
    · exact le_trans (le_max_right a x) h1
    · exact h2 x hx

/-- A fold of `max` returns either the accumulator or a list element. -/
theorem foldl_max_mem (t : List ℚ) (a : ℚ) :
    t.foldl max a = a ∨ t.foldl max a ∈ t := by
  induction t generalizing a with
  | nil => exact Or.inl rfl
  | cons y r ih =>
    rw [List.foldl_cons]
    rcases ih (max a y) with h | h
    · rcases le_total a y with hay | hya
      · right
        rw [h, max_eq_right hay]
        exact List.mem_cons_self y r
      · left
        rw [h, max_eq_left hya]
    · right
      exact List.mem_cons_of_mem y h

/-- The maximum of a non-empty vector is one of its entries. -/
theorem vmax_mem (v : List ℚ) (hv : v ≠ []) : vmax v ∈ v := by
  cases v with
  | nil => exact absurd rfl hv
  | cons x t =>
    show t.foldl max x ∈ x :: t
    rcases foldl_max_mem t x with h | h
    · rw [h]
      exact List.mem_cons_self x t
    · exact List.mem_cons_of_mem x h

/-- Every entry of a vector is at most its maximum. -/
theorem le_vmax (v : List ℚ) (x : ℚ) (hx : x ∈ v) : x ≤ vmax v := by
  cases v with
  | nil => cases hx
  | cons y t =>
    show x ≤ t.foldl max y
    rcases List.mem_cons.1 hx with rfl | hxt
    · exact (le_foldl_max t x).1
    · exact (le_foldl_max t y).2 x hxt

/-- The argmax of a non-empty vector is a valid index. -/
theorem argmax_lt_length (v : List ℚ) (hv : v ≠ []) : argmax v < v.length :=
  List.findIdx_lt_length_of_exists ⟨vmax v, vmax_mem v hv, by simp⟩

/-- The entry at the argmax is the maximum of the vector. -/
theorem getD_argmax (v : List ℚ) (hv : v ≠ []) :
    v.getD (argmax v) 0 = vmax v := by
  have hlt := argmax_lt_length v hv
  have h1 : decide (v.get ⟨argmax v, hlt⟩ = vmax v) = true :=
    @List.findIdx_getElem ℚ (fun x => decide (x = vmax v)) v hlt
  simp only [decide_eq_true_eq] at h1
  simpa [List.getD, List.getElem?_eq_getElem hlt] using h1

/-- np.argmax tie-breaking: every index strictly before the argmax holds
a strictly smaller value, so the argmax is the lowest index among those
tied for the maximum. -/
theorem getD_lt_argmax (v : List ℚ) (hv : v ≠ []) (j : Nat)
    (hj : j < argmax v) : v.getD j 0 < v.getD (argmax v) 0 := by
  have hjl : j < v.length := lt_trans hj (argmax_lt_length v hv)
  have hne : (fun x => decide (x = vmax v)) (v.get ⟨j, hjl⟩) = false :=
    List.not_of_lt_findIdx hj
  simp only [decide_eq_false_iff_not] at hne
  have hle : v.get ⟨j, hjl⟩ ≤ vmax v := le_vmax v _ (v.get_mem _ hjl)
  have hgd : v.getD j 0 = v.get ⟨j, hjl⟩ := by
    simp [List.getD, List.getElem?_eq_getElem hjl]
  rw [getD_argmax v hv, hgd]
  exact lt_of_le_of_ne hle hne

/-- Writing back the value already present leaves a list unchanged. -/
theorem set_getD_self (l : List ℚ) (i : Nat) : l.set i (l.getD i 0) = l := by
  induction l generalizing i with
  | nil => rfl
  | cons x t ih =>
    cases i with
    | zero => simp [List.getD]
    | succ j =>
      simp only [List.set, List.getD_cons_succ]
      rw [ih]

/-- Reading back a freshly written entry. -/
theorem getD_set_eq (l : List ℚ) (i : Nat) (a : ℚ) (h : i < l.length) :
    (l.set i a).getD i 0 = a := by
  simp [List.getD, List.getElem?_set, h]

/-- Reading an entry other than the freshly written one. -/
theorem getD_set_ne (l : List ℚ) (i j : Nat) (a : ℚ) (h : j ≠ i) :
    (l.set i a).getD j 0 = l.getD j 0 := by
  simp [List.getD, List.getElem?_set, Ne.symm h]

/-- Reading inside a replicated list. -/
theorem getD_replicate_lt (n j : Nat) (c : ℚ) (h : j < n) :
    (List.replicate n c).getD j 0 = c := by
  simp [List.getD, List.getElem?_replicate, h]

/-- Reading anywhere in an all-zero list gives zero. -/
theorem getD_replicate_zero (n j : Nat) :
    (List.replicate n (0 : ℚ)).getD j 0 = 0 := by
  by_cases h : j < n
  · exact getD_replicate_lt n j 0 h
  · simp [List.getD, List.getElem?_eq_none,
      Nat.le_of_not_lt (by simpa using h)]

/-- Folding max over equal values returns that value. -/
theorem foldl_max_replicate (k : Nat) (c : ℚ) :
    (List.replicate k c).foldl max c = c := by
  induction k with
  | zero => rfl
  | succ m ih => simp [List.replicate_succ, List.foldl_cons, max_self, ih]

/-- The maximum of a constant vector is that constant. -/
theorem vmax_replicate (n : Nat) (hn : 0 < n) (c : ℚ) :
    vmax (List.replicate n c) = c := by
  cases n with
  | zero => exact absurd hn (by simp)
  | succ m => simp [List.replicate_succ, vmax, foldl_max_replicate]

/-- On a constant vector, np.argmax returns index 0. -/
theorem argmax_replicate (n : Nat) (hn : 0 < n) (c : ℚ) :
    argmax (List.replicate n c) = 0 := by
  cases n with
  | zero => exact absurd hn (by simp)
  | succ m =>
    unfold argmax
    rw [vmax_replicate _ (Nat.succ_pos m)]
    simp [List.replicate_succ, List.findIdx_cons]

/-- A successful association-list lookup locates a stored pair. -/
theorem alookup_mem {α β : Type _} [DecidableEq α] (t : List (α × β))
    (a : α) (b : β) (h : alookup t a = some b) : (a, b) ∈ t := by
  induction t with
  | nil => cases h
  | cons kv r ih =>
    obtain ⟨k, v⟩ := kv
    simp only [alookup] at h
    split at h
    · cases h
      subst a
      exact List.mem_cons_self _ _
    · exact List.mem_cons_of_mem _ (ih h)

/-- The vector returned by a `Qsa` dictionary read has the configured
action count as its length, given the store's length invariant. -/
theorem qsaGet_length (q : Qsa) (s : RLState)
    (hlen : ∀ kv ∈ q.table, (kv.2 : List ℚ).length = q.length) :
    (qsaGet q s).1.length = q.length := by
  unfold qsaGet
  cases h : alookup q.table s with
  | none => simp
  | some v => exact hlen (s, v) (alookup_mem _ _ _ h)

/-- C10: `Qsa.reset` empties the visit counter and leaves the
state-to-vector table (and every action value) unchanged; consequently
`BaseRLAgent.reset`, which calls `Qsa.reset` and then the base reset
(word shuffle plus `Game.reset`), discards visit statistics while
preserving all learned action values, and rewinds the game. -/
theorem c10_reset_clears_counts_preserves_values (q : Qsa)
    (shufW shufA : List Word → List Word) (a : RLAgentState) :
    (qsaReset q).counts = [] ∧ (qsaReset q).table = q.table ∧
    (qsaReset q).length = q.length ∧
    (∀ s i, qval (qsaReset q) s i = qval q s i) ∧
    (rlAgentReset shufW shufA a).Q.counts = [] ∧
    (rlAgentReset shufW shufA a).Q.table = a.Q.table ∧
    (∀ s i, qval (rlAgentReset shufW shufA a).Q s i = qval a.Q s i) ∧
    (rlAgentReset shufW shufA a).game.index = 0 ∧
    (rlAgentReset shufW shufA a).game.word = none :=
  ⟨rfl, rfl, rfl, fun _ _ => rfl, rfl, rfl, fun _ _ => rfl, rfl, rfl⟩

/-- C7: a first lookup of an unseen state stores and returns the all-zero
vector of the configured action count; the ε-greedy sampling distribution
with ε=1 is uniform over the actions for every state, and with ε=0 puts
all probability mass on the greedy action; np.argmax (hence the greedy
policy) returns the lowest index among those tied for the maximum, and on
an unseen state the greedy policy returns action 0. -/
theorem c7_policies_zero_default (q : Qsa) (s : RLState) (v : List ℚ)
    (hn : 0 < q.length)
    (hlen : ∀ kv ∈ q.table, (kv.2 : List ℚ).length = q.length)
    (hs : alookup q.table s = none) (hv : v ≠ []) :
    qsaGet q s = (List.replicate q.length 0,
      { q with table := q.table ++ [(s, List.replicate q.length 0)] })
    ∧ (∀ s2, (epsilonProbs q 1 s2).1 =
        List.replicate q.length (1 / (q.length : ℚ)))
    ∧ (∀ s2, (epsilonProbs q 0 s2).1.getD (argmax (qsaGet q s2).1) 0 = 1 ∧
        ∀ j, j ≠ argmax (qsaGet q s2).1 →
          (epsilonProbs q 0 s2).1.getD j 0 = 0)
    ∧ (v.getD (argmax v) 0 = vmax v ∧
        ∀ j, j < argmax v → v.getD j 0 < v.getD (argmax v) 0)
    ∧ (maxValuePolicy q s).1 = 0 := by
  have hbest : ∀ s2, argmax (qsaGet q s2).1 < q.length := by
    intro s2
    rw [← qsaGet_length q s2 hlen]
    refine argmax_lt_length _ ?_
    rw [← List.length_pos_iff_ne_nil, qsaGet_length q s2 hlen]
    exact hn
  refine ⟨?_, ?_, ?_, ?_, ?_⟩
  · simp [qsaGet, hs]
  · intro s2
    simp only [epsilonProbs]
    have h1 : (1 : ℚ) - 1 = 0 := by norm_num
    rw [h1, add_zero, set_getD_self]
  · intro s2
    simp only [epsilonProbs]
    have hz : (0 : ℚ) / (q.length : ℚ) = 0 := zero_div _
    have h0 : (1 : ℚ) - 0 = 1 := by norm_num
    constructor
    · rw [hz, h0, getD_replicate_zero, zero_add,
        getD_set_eq _ _ _ (by simpa using hbest s2)]
    · intro j hj
      rw [hz, h0, getD_set_ne _ _ _ _ hj, getD_replicate_zero]
  · exact ⟨getD_argmax v hv, fun j hj => getD_lt_argmax v hv j hj⟩
  · simp [maxValuePolicy, qsaGet, hs, argmax_replicate _ hn]

/-- Witness for C7: a fresh two-action store and the unseen start state. -/
theorem c7_policies_zero_default_witness :
    (0 < (Qsa.mk 2 [] []).length
      ∧ (∀ kv ∈ (Qsa.mk 2 [] []).table,
          (kv.2 : List ℚ).length = (Qsa.mk 2 [] []).length)
      ∧ alookup (Qsa.mk 2 [] []).table [0] = none
      ∧ ([5, 5] : List ℚ) ≠ [])
    ∧ (qsaGet (Qsa.mk 2 [] []) [0] = (List.replicate 2 0,
        Qsa.mk 2 ([] ++ [([0], List.replicate 2 0)]) [])
      ∧ (∀ s2, (epsilonProbs (Qsa.mk 2 [] []) 1 s2).1 =
          List.replicate 2 (1 / ((2 : Nat) : ℚ)))
      ∧ (∀ s2, (epsilonProbs (Qsa.mk 2 [] []) 0 s2).1.getD
            (argmax (qsaGet (Qsa.mk 2 [] []) s2).1) 0 = 1 ∧
          ∀ j, j ≠ argmax (qsaGet (Qsa.mk 2 [] []) s2).1 →
            (epsilonProbs (Qsa.mk 2 [] []) 0 s2).1.getD j 0 = 0)
      ∧ (([5, 5] : List ℚ).getD (argmax [5, 5]) 0 = vmax [5, 5] ∧
          ∀ j, j < argmax ([5, 5] : List ℚ) →
            ([5, 5] : List ℚ).getD j 0 < ([5, 5] : List ℚ).getD
              (argmax [5, 5]) 0)
      ∧ (maxValuePolicy (Qsa.mk 2 [] []) [0]).1 = 0) :=
  ⟨⟨by decide, by decide, rfl, by decide⟩,
    c7_policies_zero_default (Qsa.mk 2 [] []) [0] [5, 5]
      (by decide) (by decide) rfl (by decide)⟩

/-- Decoding inverts encoding on every non-empty key, provided the
number formatter is comma-free and exactly inverted by the parser. -/
theorem decode_encode_key (fmt : ℚ → List Char) (parse : List Char → ℚ)
    (hround : ∀ x : ℚ, parse (fmt x) = x)
    (hcomma : ∀ x : ℚ, ',' ∉ fmt x) (k : RLState) (hk : k ≠ []) :
    decodeKey parse (encodeKey fmt k) = k := by
  unfold decodeKey encodeKey
  rw [List.splitOn_intercalate (k.map fmt) ','
      (by
        intro l hl
        rcases List.mem_map.1 hl with ⟨x, _, rfl⟩
        exact hcomma x)
      (by simpa using hk)]
  rw [List.map_map]
  have : ∀ x ∈ k, (parse ∘ fmt) x = id x := fun x _ => hround x
  rw [List.map_congr_left this, List.map_id]

/-- C5: loading the document produced by `Qsa.save` reproduces the
state-to-vector mapping exactly: every comma-joined key parses back to
the original tuple of numbers and every value vector is carried with its
original length and entries.  The properties assumed of `fmt`/`parse`
are exactly Python's documented guarantees for `str`/`float` on numbers
(comma-free output, exact round-trip for finite floats); keys are
required to be non-empty tuples, as all of the program's states are —
on an empty tuple the Python code would fail in `float("")`. -/
theorem c5_save_load_roundtrip (table : List (RLState × List ℚ))
    (fmt : ℚ → List Char) (parse : List Char → ℚ)
    (hround : ∀ x : ℚ, parse (fmt x) = x)
    (hcomma : ∀ x : ℚ, ',' ∉ fmt x)
    (hne : ∀ kv ∈ table, (kv.1 : RLState) ≠ []) :
    qsaLoad parse (qsaSave fmt table) = table := by
  unfold qsaLoad qsaSave
  rw [List.map_map]
  have : ∀ kv ∈ table,
      ((fun kv => (decodeKey parse kv.1, kv.2)) ∘
        (fun kv => (encodeKey fmt kv.1, kv.2)))
        (kv : RLState × List ℚ) = id kv := by
    intro kv hkv
    have h := decode_encode_key fmt parse hround hcomma kv.1 (hne kv hkv)
    simp only [Function.comp_apply, id]
    rw [h]
  rw [List.map_congr_left this, List.map_id]

/-- The concrete witness formatter is exactly inverted by its parser. -/
theorem unaryParse_unaryFmt (x : ℚ) : unaryParse (unaryFmt x) = x := by
  unfold unaryParse unaryFmt
  rw [List.length_replicate, Nat.unpair_pair]
  simp only [Equiv.symm_apply_apply]
  exact Rat.num_div_den x

/-- The concrete witness formatter never emits a comma. -/
theorem comma_not_mem_unaryFmt (x : ℚ) : ',' ∉ unaryFmt x := by
  unfold unaryFmt
  intro h
  have := List.eq_of_mem_replicate h
  simp at this

/-- Witness for C5: a one-entry store with state `(0,)` and a three-entry
zero vector round-trips through save and load. -/
theorem c5_save_load_roundtrip_witness :
    ((∀ x : ℚ, unaryParse (unaryFmt x) = x)
      ∧ (∀ x : ℚ, ',' ∉ unaryFmt x)
      ∧ (∀ kv ∈ ([([0], [0, 0, 0])] : List (RLState × List ℚ)),
          (kv.1 : RLState) ≠ []))
    ∧ qsaLoad unaryParse (qsaSave unaryFmt [([0], [0, 0, 0])])
        = [([0], [0, 0, 0])] :=
  ⟨⟨unaryParse_unaryFmt, comma_not_mem_unaryFmt, by decide⟩,
    c5_save_load_roundtrip [([0], [0, 0, 0])] unaryFmt unaryParse
      unaryParse_unaryFmt comma_not_mem_unaryFmt (by decide)⟩

/-- C3: the claim says `train` partitions the N answers into a leading
training segment of floor(N·f) answers and a trailing evaluation segment
of all the rest, none skipped.  In the code, `BaseAgent.play(n)` calls
`game.start()` (consuming an answer) before checking the count and then
breaks without playing it, so the answer at position floor(N·f) is
consumed between the segments and never played: with 4 answers and 50%
training, "aback" and "abase" are trained on, only "abbey" is evaluated,
and "abate" is skipped entirely. -/
theorem c3_train_skips_boundary_answer :
    trainPartition ["aback".toList, "abase".toList, "abate".toList,
        "abbey".toList] 50
      = (["aback".toList, "abase".toList], ["abbey".toList]) := by
  with_unfolding_all decide

/-- Lookup distributes over association-list append. -/
theorem alookup_append {α β : Type _} [DecidableEq α] (t1 t2 : List (α × β))
    (x : α) :
    alookup (t1 ++ t2) x =
      match alookup t1 x with
      | some b => some b
      | none => alookup t2 x := by
  induction t1 with
  | nil => rfl
  | cons kv r ih =>
    obtain ⟨k, v⟩ := kv
    simp only [List.cons_append, alookup]
    split
    · rfl
    · exact ih

/-- Reading the key just written by `aset`. -/
theorem alookup_aset_self {α β : Type _} [DecidableEq α]
    (t : List (α × β)) (s : α) (v : β) :
    alookup (aset t s v) s = (alookup t s).map (fun _ => v) := by
  induction t with
  | nil => rfl
  | cons kv r ih =>
    obtain ⟨k, w⟩ := kv
    by_cases h : k = s
    · simp [aset, alookup, h]
    · simp [aset, alookup, h, ih]

/-- Reading a key other than the one written by `aset`. -/
theorem alookup_aset_ne {α β : Type _} [DecidableEq α]
    (t : List (α × β)) (s s2 : α) (v : β) (h : s2 ≠ s) :
    alookup (aset t s v) s2 = alookup t s2 := by
  induction t with
  | nil => rfl
  | cons kv r ih =>
    obtain ⟨k, w⟩ := kv
    by_cases hk : k = s
    · subst hk
      simp [aset, alookup, Ne.symm h]
    · simp only [aset, if_neg hk, alookup]
      split
      · rfl
      · exact ih

/-- A dictionary read (with its possible `__missing__` insertion) never
changes any action value seen through the lazy-default view. -/
theorem qval_qsaGet_snd (q : Qsa) (s s2 : RLState) (j : Nat) :
    qval (qsaGet q s).2 s2 j = qval q s2 j := by
  unfold qsaGet qval
  cases h : alookup q.table s with
  | some v => rfl
  | none =>
    simp only [alookup_append]
    cases h2 : alookup q.table s2 with
    | some w => simp [h2]
    | none =>
      by_cases hss : s = s2 <;> simp [h2, alookup, hss]

/-- After a dictionary read, the key is stored and holds the returned
vector. -/
theorem alookup_qsaGet_self (q : Qsa) (s : RLState) :
    alookup (qsaGet q s).2.table s = some (qsaGet q s).1 := by
  unfold qsaGet
  cases h : alookup q.table s with
  | some v => simpa using h
  | none => simp [alookup_append, h, alookup]

/-- A dictionary read never changes the configured action count. -/
theorem qsaGet_snd_len (q : Qsa) (s : RLState) :
    (qsaGet q s).2.length = q.length := by
  unfold qsaGet
  cases h : alookup q.table s <;> rfl

/-- A dictionary read preserves the invariant that every stored vector
has the configured action count as its length. -/
theorem qsaGet_inv (q : Qsa) (s : RLState)
    (hlen : ∀ kv ∈ q.table, (kv.2 : List ℚ).length = q.length) :
    ∀ kv ∈ (qsaGet q s).2.table,
      (kv.2 : List ℚ).length = (qsaGet q s).2.length := by
  unfold qsaGet
  cases h : alookup q.table s with
  | some v => simpa using hlen
  | none =>
    simp only
    intro kv hkv
    rcases List.mem_append.1 hkv with hkv | hkv
    · exact hlen kv hkv
    · simp only [List.mem_singleton] at hkv
      subst hkv
      simp

/-- The lazy-default value view agrees with the vector a dictionary read
returns. -/
theorem qval_eq_qsaGet_fst (q : Qsa) (s : RLState) (j : Nat) :
    qval q s j = (qsaGet q s).1.getD j 0 := by
  unfold qval qsaGet
  cases h : alookup q.table s <;> simp [h]

/-- Reading the entry written back by `qsaSetVal` (the key must already
be stored, as it is after a dictionary read). -/
theorem qval_qsaSetVal_self (q : Qsa) (s : RLState) (v w : List ℚ)
    (j : Nat) (h : alookup q.table s = some w) :
    qval (qsaSetVal q s v) s j = v.getD j 0 := by
  unfold qval qsaSetVal
  simp only [alookup_aset_self, h, Option.map_some]
  rfl

/-- Values at other states are untouched by `qsaSetVal`. -/
theorem qval_qsaSetVal_ne (q : Qsa) (s s2 : RLState) (v : List ℚ)
    (j : Nat) (h : s2 ≠ s) :
    qval (qsaSetVal q s v) s2 j = qval q s2 j := by
  unfold qval qsaSetVal
  simp only [alookup_aset_ne _ _ _ _ h]

/-- Visit counting never changes action values. -/
theorem qval_qsaVisit (q : Qsa) (s s2 : RLState) (j : Nat) :
    qval (qsaVisit q s) s2 j = qval q s2 j := rfl


/-- The Q-learning training step satisfies its C2 specification whenever
the action function yields a guess and the game accepts it. -/
theorem qlStepSpec_holds (a g : ℚ) (policy : RLState → Nat)
    (actionFn : Nat → List Word → Option Word) (stq : QLLoop)
    (guess1 : Word) (score1 : List ℚ) (game1 : GameState)
    (hnq : 0 < stq.Q.length)
    (hlenq : ∀ kv ∈ stq.Q.table, (kv.2 : List ℚ).length = stq.Q.length)
    (hpolq : policy stq.state < stq.Q.length)
    (hact1 : actionFn (policy stq.state) stq.words = some guess1)
    (hgame1 : gameGuess stq.game guess1 = .ok (score1, game1)) :
    qlStepSpec a g policy actionFn stq score1 := by
  have hv1len : (qsaGet stq.Q score1).1.length = stq.Q.length :=
    qsaGet_length stq.Q score1 hlenq
  have hv1ne : (qsaGet stq.Q score1).1 ≠ [] := by
    rw [← List.length_pos_iff_ne_nil, hv1len]
    exact hnq
  have hq1inv := qsaGet_inv stq.Q score1 hlenq
  have hv2len : (qsaGet (qsaGet stq.Q score1).2 stq.state).1.length
      = stq.Q.length := by
    rw [qsaGet_length _ _ hq1inv, qsaGet_snd_len]
  have hold : (qsaGet (qsaGet stq.Q score1).2 stq.state).1.getD
        (policy stq.state) 0
      = qval stq.Q stq.state (policy stq.state) := by
    rw [← qval_eq_qsaGet_fst, qval_qsaGet_snd]
  unfold qlStepSpec
  simp only [qlStep, hact1, hgame1]
  constructor
  · rfl
  · intro st2 done heq
    injection heq with hpair
    injection hpair with hst hdone
    subst hst
    subst hdone
    refine ⟨rfl, rfl, ?_, ?_, ?_, ?_, ?_⟩
    · rw [qval_qsaSetVal_self _ _ _ _ _ (alookup_qsaGet_self _ _),
        getD_set_eq _ _ _ (by rw [hv2len]; exact hpolq), hold,
        getD_argmax _ hv1ne]
      by_cases hd : score1.sum = 0 <;> simp [hd]
    · intro j hj
      rw [qval_eq_qsaGet_fst]
      have hjv : j < (qsaGet stq.Q score1).1.length := by
        rw [hv1len]; exact hj
      have hgd : (qsaGet stq.Q score1).1.getD j 0
          = (qsaGet stq.Q score1).1.get ⟨j, hjv⟩ := by
        simp [List.getD, List.getElem?_eq_getElem hjv]
      rw [hgd]
      exact le_vmax _ _ (List.get_mem _ _ hjv)
    · refine ⟨argmax (qsaGet stq.Q score1).1, ?_, ?_⟩
      · rw [← hv1len]; exact argmax_lt_length _ hv1ne
      · rw [qval_eq_qsaGet_fst, getD_argmax _ hv1ne]
    · intro s2 j hs2
      rw [qval_qsaSetVal_ne _ _ _ _ _ hs2, qval_qsaGet_snd, qval_qsaGet_snd]
    · intro j hj
      rw [qval_qsaSetVal_self _ _ _ _ _ (alookup_qsaGet_self _ _),
        getD_set_ne _ _ _ _ hj, ← qval_eq_qsaGet_fst, qval_qsaGet_snd]


/-- The Sarsa training step satisfies its C2 specification whenever the
carried action yields a guess and the game accepts it. -/
theorem sarsaStepSpec_holds (a g : ℚ) (policy : RLState → Nat)
    (actionFn : Nat → List Word → Option Word) (sts : SarsaLoop)
    (guess2 : Word) (score2 : List ℚ) (game2 : GameState)
    (hlens : ∀ kv ∈ sts.Q.table, (kv.2 : List ℚ).length = sts.Q.length)
    (hpols : sts.action < sts.Q.length)
    (hact2 : actionFn sts.action sts.words = some guess2)
    (hgame2 : gameGuess sts.game guess2 = .ok (score2, game2)) :
    sarsaStepSpec a g policy actionFn sts score2 := by
  have hq1inv := qsaGet_inv sts.Q score2 hlens
  have hv2len : (qsaGet (qsaGet sts.Q score2).2 sts.state).1.length
      = sts.Q.length := by
    rw [qsaGet_length _ _ hq1inv, qsaGet_snd_len]
  have htarget : ((qsaGet sts.Q score2).1.getD (policy score2) 0 : ℚ)
      = qval sts.Q score2 (policy score2) := (qval_eq_qsaGet_fst _ _ _).symm
  have hold : (qsaGet (qsaGet sts.Q score2).2 sts.state).1.getD sts.action 0
      = qval sts.Q sts.state sts.action := by
    rw [← qval_eq_qsaGet_fst, qval_qsaGet_snd]
  unfold sarsaStepSpec
  simp only [sarsaStep, hact2, hgame2]
  cases hdec : decide (score2.sum = 0) with
  | true =>
    have hd : score2.sum = 0 := of_decide_eq_true hdec
    constructor
    · rw [if_pos (by trivial), if_pos (by trivial)]
      rfl
    · intro st2 done heq
      rw [if_pos (by trivial), if_pos (by trivial)] at heq
      injection heq with hpair
      injection hpair with hst hdone
      subst hst
      subst hdone
      refine ⟨rfl, ?_, ?_, ?_, ?_⟩
      · rw [qval_qsaVisit,
          qval_qsaSetVal_self _ _ _ _ _ (alookup_qsaGet_self _ _),
          getD_set_eq _ _ _ (by rw [hv2len]; exact hpols), hold, htarget]
        simp [hd]
      · intro h
        exact absurd h (by decide)
      · intro s2 j hs2
        rw [qval_qsaVisit, qval_qsaSetVal_ne _ _ _ _ _ hs2, qval_qsaGet_snd,
          qval_qsaGet_snd]
      · intro j hj
        rw [qval_qsaVisit,
          qval_qsaSetVal_self _ _ _ _ _ (alookup_qsaGet_self _ _),
          getD_set_ne _ _ _ _ hj, ← qval_eq_qsaGet_fst, qval_qsaGet_snd]
  | false =>
    have hd : ¬ score2.sum = 0 := of_decide_eq_false hdec
    constructor
    · rw [if_pos (by trivial), if_neg (by decide)]
      rfl
    · intro st2 done heq
      rw [if_pos (by trivial), if_neg (by decide)] at heq
      injection heq with hpair
      injection hpair with hst hdone
      subst hst
      subst hdone
      refine ⟨rfl, ?_, ?_, ?_, ?_⟩
      · rw [qval_qsaVisit,
          qval_qsaSetVal_self _ _ _ _ _ (alookup_qsaGet_self _ _),
          getD_set_eq _ _ _ (by rw [hv2len]; exact hpols), hold, htarget]
        simp [hd]
      · intro _
        exact ⟨rfl, rfl⟩
      · intro s2 j hs2
        rw [qval_qsaVisit, qval_qsaSetVal_ne _ _ _ _ _ hs2, qval_qsaGet_snd,
          qval_qsaGet_snd]
      · intro j hj
        rw [qval_qsaVisit,
          qval_qsaSetVal_self _ _ _ _ _ (alookup_qsaGet_self _ _),
          getD_set_ne _ _ _ _ hj, ← qval_eq_qsaGet_fst, qval_qsaGet_snd]

/-- C2: in training mode, both RL variants apply
`value(state, action) += α·(target − value(state, action))` at every
successful step; the Q-learning target is
`reward + γ·max over all actions of value(next_state, ·)` and the Sarsa
target is `reward + γ·value(next_state, next_action)` with `next_action`
chosen by the same policy before the update and carried into the
following loop iteration rather than re-derived.  Hypotheses: the store
satisfies its length invariant, the action index is within the action
count (policies guarantee both), and the step's action function and game
call succeed with the observed guess and score. -/
theorem c2_td_update_rules (a g : ℚ) (policy : RLState → Nat)
    (actionFn : Nat → List Word → Option Word) (stq : QLLoop)
    (sts : SarsaLoop) (guess1 : Word) (score1 : List ℚ) (game1 : GameState)
    (guess2 : Word) (score2 : List ℚ) (game2 : GameState)
    (hnq : 0 < stq.Q.length)
    (hlenq : ∀ kv ∈ stq.Q.table, (kv.2 : List ℚ).length = stq.Q.length)
    (hpolq : policy stq.state < stq.Q.length)
    (hact1 : actionFn (policy stq.state) stq.words = some guess1)
    (hgame1 : gameGuess stq.game guess1 = .ok (score1, game1))
    (hlens : ∀ kv ∈ sts.Q.table, (kv.2 : List ℚ).length = sts.Q.length)
    (hpols : sts.action < sts.Q.length)
    (hact2 : actionFn sts.action sts.words = some guess2)
    (hgame2 : gameGuess sts.game guess2 = .ok (score2, game2)) :
    qlStepSpec a g policy actionFn stq score1 ∧
      sarsaStepSpec a g policy actionFn sts score2 :=
  ⟨qlStepSpec_holds a g policy actionFn stq guess1 score1 game1 hnq hlenq
      hpolq hact1 hgame1,
    sarsaStepSpec_holds a g policy actionFn sts guess2 score2 game2 hlens
      hpols hact2 hgame2⟩

/-- Witness for C2: one concrete training step of each variant on the
answer "crane" with candidate list {"slate"} and a fresh 3-action
store. -/
theorem c2_td_update_rules_witness :
    (0 < exampleQL.Q.length
      ∧ (∀ kv ∈ exampleQL.Q.table, (kv.2 : List ℚ).length = exampleQL.Q.length)
      ∧ 0 < exampleQL.Q.length
      ∧ exampleQL.words.head? = some "slate".toList
      ∧ gameGuess exampleGame "slate".toList
          = .ok (([-1, -1, 0, -1, 0] : List ℚ), exampleGame)
      ∧ (∀ kv ∈ exampleSarsa.Q.table,
          (kv.2 : List ℚ).length = exampleSarsa.Q.length)
      ∧ exampleSarsa.action < exampleSarsa.Q.length
      ∧ exampleSarsa.words.head? = some "slate".toList
      ∧ gameGuess exampleGame "slate".toList
          = .ok (([-1, -1, 0, -1, 0] : List ℚ), exampleGame))
    ∧ qlStepSpec (1/20) (9/10) (fun _ => 0) (fun _ ws => ws.head?)
        exampleQL [-1, -1, 0, -1, 0]
    ∧ sarsaStepSpec (1/20) (9/10) (fun _ => 0) (fun _ ws => ws.head?)
        exampleSarsa [-1, -1, 0, -1, 0] :=
  ⟨⟨by decide, by decide, by decide, rfl, by with_unfolding_all decide,
    by decide, by decide, rfl, by with_unfolding_all decide⟩,
    c2_td_update_rules (1/20) (9/10) (fun _ => 0) (fun _ ws => ws.head?)
      exampleQL exampleSarsa "slate".toList [-1, -1, 0, -1, 0] exampleGame
      "slate".toList [-1, -1, 0, -1, 0] exampleGame
      (by decide) (by decide) (by decide) rfl (by with_unfolding_all decide)
      (by decide) (by decide) rfl (by with_unfolding_all decide)⟩

/-- C4 counterexample: for the RL agents the claim fails — `play_once`
raises on every episode, including one whose candidate list is already
empty before the attempt cap: qlearning.py line 32 reads
`self.epsilon_greedy` / `self.max_value`, attributes that are never
assigned in this snapshot (the assignments at rl_base.py lines 87-88
are commented out and `BaseRLAgent.play` sets only `self.policy`), so
the episode dies with an uncaught `AttributeError` instead of ending as
a recorded loss with a diagnostic notice. -/
theorem c4_rl_play_once_attribute_error :
    qlPlayOnce (1/20) (9/10) false none none
        (fun _ ws => guess_by_random 0 ws) ⟨3, [], []⟩ [] exampleGame
      = .error .attribute := rfl

/-- C4 (amended): exhaustion is graceful only for the SimpleAgent: when
its candidate computation comes up empty in any round, the episode
breaks immediately with a diagnostic notice, no exception, and no
further guesses, and the epilogue records the episode as a loss carrying
the game's active answer word (so `play` continues with the next
answer).  The RL agents never reach any exhaustion handling: in this
snapshot their `play_once` raises an uncaught `AttributeError` at the
policy binding (qlearning.py line 32 / sarsa.py line 32 read
`self.epsilon_greedy` / `self.max_value`, never assigned because
rl_base.py lines 87-88 are commented out) before the first guess of
every episode, whatever the candidate list — the episode is aborted by
the error rather than degrading into a loss. -/
theorem c4_exhaustion_graceful_only_for_simple (pick : List Word → Nat)
    (randomize : Bool) (st : SimpleLoop) (fuel roundNum : Nat)
    (a g : ℚ) (training : Bool)
    (actionFn : Nat → List Word → Option Word) (q : Qsa)
    (words : List Word) (game : GameState)
    (hempty : (get_candidate_words st.words).isEmpty = true) :
    simpleLoop pick randomize (fuel + 1) roundNum st
      = .ok { st with notices := st.notices ++ [.exhausted roundNum] }
    ∧ (st.res.word = none →
        (simpleFinalize
          { st with notices := st.notices ++ [.exhausted roundNum] }).res.word
            = st.game.word
        ∧ (simpleFinalize
            { st with
              notices := st.notices ++ [.exhausted roundNum] }).res.result
            = st.res.result)
    ∧ qlPlayOnce a g training none none actionFn q words game
        = .error .attribute
    ∧ sarsaPlayOnce a g training none none actionFn q words game
        = .error .attribute := by
  refine ⟨?_, ?_, ?_, ?_⟩
  · have hstep : simpleStep pick randomize roundNum st
        = .ok ({ st with notices := st.notices ++ [.exhausted roundNum] },
            true) := by
      simp only [simpleStep]
      rw [if_pos hempty]
    simp only [simpleLoop, hstep]
    rw [if_pos trivial]
  · intro hw
    simp [simpleFinalize, hw]
  · cases training <;> rfl
  · cases training <;> rfl

/-- Witness for the amended C4: a mid-episode state with an empty
candidate pool for the simple agent, and concrete RL inputs with the
snapshot's unassigned policy attributes. -/
theorem c4_exhaustion_graceful_only_for_simple_witness :
    (get_candidate_words
        (⟨[], ⟨[], none, 0⟩, [], exampleGame⟩ : SimpleLoop).words).isEmpty
          = true
    ∧ (simpleLoop (fun _ => 0) true (4 + 1) 1
          ⟨[], ⟨[], none, 0⟩, [], exampleGame⟩
        = .ok { (⟨[], ⟨[], none, 0⟩, [], exampleGame⟩ : SimpleLoop) with
            notices := (⟨[], ⟨[], none, 0⟩, [],
              exampleGame⟩ : SimpleLoop).notices ++ [.exhausted 1] }
      ∧ ((⟨[], ⟨[], none, 0⟩, [], exampleGame⟩ : SimpleLoop).res.word = none →
          (simpleFinalize
            { (⟨[], ⟨[], none, 0⟩, [], exampleGame⟩ : SimpleLoop) with
              notices := (⟨[], ⟨[], none, 0⟩, [],
                exampleGame⟩ : SimpleLoop).notices ++
                  [.exhausted 1] }).res.word
              = (⟨[], ⟨[], none, 0⟩, [], exampleGame⟩ : SimpleLoop).game.word
          ∧ (simpleFinalize
              { (⟨[], ⟨[], none, 0⟩, [], exampleGame⟩ : SimpleLoop) with
                notices := (⟨[], ⟨[], none, 0⟩, [],
                  exampleGame⟩ : SimpleLoop).notices ++
                    [.exhausted 1] }).res.result
              = (⟨[], ⟨[], none, 0⟩, [], exampleGame⟩ : SimpleLoop).res.result)
      ∧ qlPlayOnce (1/20) (9/10) true none none
          (fun _ ws => guess_by_random 0 ws) ⟨3, [], []⟩ ["slate".toList]
          exampleGame = .error .attribute
      ∧ sarsaPlayOnce (1/20) (9/10) true none none
          (fun _ ws => guess_by_random 0 ws) ⟨3, [], []⟩ ["slate".toList]
          exampleGame = .error .attribute) :=
  ⟨by decide,
    c4_exhaustion_graceful_only_for_simple (fun _ => 0) true
      ⟨[], ⟨[], none, 0⟩, [], exampleGame⟩ 4 1 (1/20) (9/10) true
      (fun _ ws => guess_by_random 0 ws) ⟨3, [], []⟩ ["slate".toList]
      exampleGame (by decide)⟩

end WordleAgent
